import Mathlib

/-!
Verification of the `Vec<T>` growable-array library (`src/vec/vec.h`,
`src/unnamed/part_000` a.k.a. `concepts.h`) against its specification.

Shallow embedding: a `Vec T` state is the element list held by the wrapped
`std::vector` (`self`) together with the current allocation capacity
(`cap`); machine `size_type` indices become `Nat`.  A non-mutating method
becomes a pure function of the state; a mutating method returns the new
state; a method that may throw returns `Except error.Error`.  An iterator
range `[first, last)` is embedded as the `List` of elements it traverses,
in traversal order.
-/

namespace error

/-- The error domain of `vec.h` (namespace `error`): the two exception
classes `NoSuchElement` and `IndexOutOfBounds`, each carrying a message,
combined into one sum type so that fallible operations can return
`Except error.Error`. -/
inductive Error where
  | NoSuchElement (message : String)
  | IndexOutOfBounds (message : String)
deriving DecidableEq, Repr

/-- Discriminates the `NoSuchElement` exception class. -/
def Error.is_NoSuchElement : Error → Bool
  | .NoSuchElement _ => true
  | .IndexOutOfBounds _ => false

/-- Discriminates the `IndexOutOfBounds` exception class (the kind the spec
calls `IndexOutOfRange`). -/
def Error.is_IndexOutOfBounds : Error → Bool
  | .NoSuchElement _ => false
  | .IndexOutOfBounds _ => true

end error

namespace pattern

/-- `pattern::Pattern<T>`: a pure element-to-element function. -/
def Pattern (T : Type) : Type := T → T

/-- `pattern::Incr<T, by>`: `val ↦ val + by` (default `by = 1`).  The
template parameter `by` is modelled as an explicit argument (named `step`,
since `by` is reserved in Lean). -/
def Incr (step : Int := 1) : Pattern Int := fun val => val + step

/-- `pattern::Decr<T, by>`: `val ↦ val - by` (default `by = 1`). -/
def Decr (step : Int := 1) : Pattern Int := fun val => val - step

/-- `pattern::Mult<T, by>`: `val ↦ val * by` (default `by = 2`). -/
def Mult (step : Int := 2) : Pattern Int := fun val => val * step

end pattern

/-- The container state: `self` is the element sequence of the wrapped
`std::vector<T>`, `cap` its current allocation capacity (`capacity()`).
The constructors below set `cap` to the exact number of elements
allocated; what the claims need is only how operations change `cap`. -/
structure Vec (T : Type) where
  self : List T
  cap : Nat
deriving DecidableEq, Repr

/-- `Vec::size()`: `self.size()`. -/
def Vec.size {T : Type} (v : Vec T) : Nat := v.self.length

/-- `Vec::cap()`: `self.capacity()`. -/
def Vec.capacity {T : Type} (v : Vec T) : Nat := v.cap

/-- `Vec::is_empty()`: `self.empty()`. -/
def Vec.is_empty {T : Type} (v : Vec T) : Bool := v.self.isEmpty

/-- `Vec::of(n, default_val)`: builds `Underlying(n, default_val)`, i.e.
`n` copies of `default_val`. -/
def Vec.of {T : Type} (n : Nat) (default_val : T) : Vec T :=
  { self := List.replicate n default_val, cap := n }

/-- `Vec::from(begin, end)` (the capability-gated factory): builds
`Underlying(begin, end)`, one element per position of the range `[begin,
end)`, in order.  A Lean `List T` is a multi-pass (forward) source whose
reference type is `T` itself, so it satisfies `vector::IsValidIterator`
(`concepts.h`): `T` is trivially constructible from `T`.  `from` is a
reserved word in Lean, hence the name `from_range`. -/
def Vec.from_range {T : Type} (range : List T) : Vec T :=
  { self := range, cap := range.length }

/-- `Vec::at(i)` (`at` is reserved in Lean): if `i >= self.size()` throws
`IndexOutOfBounds` with the "invalid index" message, else returns
`self.at(i)`, the element at position `i`. -/
def Vec.at_idx {T : Type} (v : Vec T) (i : Nat) : Except error.Error T :=
  if h : v.self.length ≤ i then
    .error (.IndexOutOfBounds
      ("invalid index for vector of size " ++ toString v.self.length ++ "."))
  else
    .ok (v.self.get ⟨i, by omega⟩)

/-- `Vec::operator[](i)`: if `i >= self.size()` throws `IndexOutOfBounds`
with the "index too large" message, else returns `self.at(i)`. -/
def Vec.op_index {T : Type} (v : Vec T) (i : Nat) : Except error.Error T :=
  if h : v.self.length ≤ i then
    .error (.IndexOutOfBounds
      ("index too large for vector of size " ++ toString v.self.length ++ "."))
  else
    .ok (v.self.get ⟨i, by omega⟩)

/-- `Vec::peek_back()`: if `self.empty()` throws `NoSuchElement`, else
returns `self.back()`.  The method never mutates, so it also returns the
(unchanged) state, making the frame condition statable. -/
def Vec.peek_back {T : Type} (v : Vec T) : Except error.Error T × Vec T :=
  if h : v.self.isEmpty then
    (.error (.NoSuchElement "vector is empty."), v)
  else
    (.ok (v.self.getLast (by simpa using h)), v)

/-- `Vec::peek_front()`: if `self.empty()` throws `NoSuchElement`, else
returns `self.front()`.  Non-mutating, returns the unchanged state too. -/
def Vec.peek_front {T : Type} (v : Vec T) : Except error.Error T × Vec T :=
  if h : v.self.isEmpty then
    (.error (.NoSuchElement "vector is empty."), v)
  else
    (.ok (v.self.head (by simpa using h)), v)

/-- `Vec::pop_back()`: if `is_empty()` returns `std::nullopt`; otherwise
reads `peek_back()` (which could in principle throw, hence the `Except`
result type) then does `self.pop_back()` and returns the read value.
`std::vector::pop_back` removes the last element and leaves the capacity
unchanged. -/
def Vec.pop_back {T : Type} (v : Vec T) :
    Except error.Error (Option T × Vec T) :=
  if v.is_empty then
    .ok (none, v)
  else
    match (v.peek_back).1 with
    | .error e => .error e
    | .ok result => .ok (some result, { v with self := v.self.dropLast })

/-- `Vec::clear()`: `self.clear()` destroys all elements and leaves size 0;
`std::vector::clear` does not reallocate, so the capacity is kept. -/
def Vec.clear {T : Type} (v : Vec T) : Vec T := { v with self := [] }

/-- `C10`: For every container, `is_empty()` returns true if and only if
`size()` equals 0. -/
theorem is_empty_iff_size_zero {T : Type} (v : Vec T) :
    v.is_empty = true ↔ v.size = 0 := by
  cases h : v.self with
  | nil => simp [Vec.is_empty, Vec.size, h]
  | cons x xs => simp [Vec.is_empty, Vec.size, h]

/-- `C8`: For every container, after `clear()` the size is 0 and the
capacity is unchanged from its value before the call. -/
theorem clear_size_zero_cap_unchanged {T : Type} (v : Vec T) :
    (v.clear).size = 0 ∧ (v.clear).capacity = v.capacity := by
  exact ⟨rfl, rfl⟩

/-- `C7`: For every traversal range of length `k` (a range whose iterator
satisfies `vector::IsValidIterator`, which every `List T` does, being a
multi-pass source of `T`), `from(rangeBegin, rangeEnd)` yields a container
of size `k` whose elements equal the source elements in the same order. -/
theorem from_range_preserves {T : Type} (range : List T) :
    (Vec.from_range range).size = range.length ∧
    (Vec.from_range range).self = range := by
  exact ⟨rfl, rfl⟩

/-- `C1`: For every container and index `i < size`, `at(i)` and
`operator[](i)` return the same element (the one at position `i`) and
never raise; for every `i ≥ size`, including `i == size`, both raise the
index error (`IndexOutOfBounds` in the code, `IndexOutOfRange` in the
spec's naming). -/
theorem at_op_index_bounds {T : Type} (v : Vec T) (i : Nat) :
    (∀ h : i < v.size,
      v.at_idx i = Except.ok (v.self.get ⟨i, h⟩) ∧
      v.op_index i = Except.ok (v.self.get ⟨i, h⟩)) ∧
    (v.size ≤ i →
      (∃ m, v.at_idx i = Except.error (error.Error.IndexOutOfBounds m)) ∧
      (∃ m, v.op_index i = Except.error (error.Error.IndexOutOfBounds m))) := by
  constructor
  · intro h
    have h' : ¬ v.self.length ≤ i := by
      simpa [Vec.size] using Nat.not_le.mpr h
    constructor
    · simp [Vec.at_idx, h']
    · simp [Vec.op_index, h']
  · intro h
    have h' : v.self.length ≤ i := by simpa [Vec.size] using h
    constructor
    · exact ⟨"invalid index for vector of size " ++ toString v.self.length ++ ".",
        by simp [Vec.at_idx, h']⟩
    · exact ⟨"index too large for vector of size " ++ toString v.self.length ++ ".",
        by simp [Vec.op_index, h']⟩

/-- Witness for `C1` at the container `of(3, 7)` with the in-range index 1
and the boundary index 3 (= size). -/
theorem at_op_index_bounds_w :
    ((Vec.of 3 (7 : Int)).at_idx 1 = Except.ok 7 ∧
      (Vec.of 3 (7 : Int)).op_index 1 = Except.ok 7) ∧
    ((∃ m, (Vec.of 3 (7 : Int)).at_idx 3 =
        Except.error (error.Error.IndexOutOfBounds m)) ∧
      (∃ m, (Vec.of 3 (7 : Int)).op_index 3 =
        Except.error (error.Error.IndexOutOfBounds m))) := by
  constructor
  · have h := (at_op_index_bounds (Vec.of 3 (7 : Int)) 1).1 (by decide)
    simpa using h
  · exact (at_op_index_bounds (Vec.of 3 (7 : Int)) 3).2 (by decide)

/-- `C3`: `peek_front()` and `peek_back()` raise `NoSuchElement` exactly
when the container is empty; on a non-empty container they return the
first and last element.  In both cases the returned state is the argument
itself, so the size is unchanged. -/
theorem peek_front_back_spec {T : Type} (v : Vec T) :
    (v.is_empty = true ↔
      (v.peek_front.1 = Except.error (error.Error.NoSuchElement "vector is empty.") ∧
       v.peek_back.1 = Except.error (error.Error.NoSuchElement "vector is empty."))) ∧
    (∀ h : v.self ≠ [],
      v.peek_front.1 = Except.ok (v.self.head h) ∧
      v.peek_back.1 = Except.ok (v.self.getLast h)) ∧
    v.peek_front.2.size = v.size ∧ v.peek_back.2.size = v.size := by
  refine ⟨?_, ?_, ?_, ?_⟩
  · constructor
    · intro h
      have h' : v.self.isEmpty = true := h
      constructor
      · simp [Vec.peek_front, h']
      · simp [Vec.peek_back, h']
    · rintro ⟨hf, _⟩
      by_contra hne
      have h' : v.self.isEmpty = false := by
        simpa [Vec.is_empty] using hne
      simp [Vec.peek_front, h'] at hf
  · intro h
    have h' : ¬ v.self.isEmpty = true := by simpa using h
    constructor
    · simp [Vec.peek_front, h']
    · simp [Vec.peek_back, h']
  · simp [Vec.peek_front]
    split <;> rfl
  · simp [Vec.peek_back]
    split <;> rfl

/-- Witness for `C3`: the empty container raises on both peeks; the
container `[4, 9]` peeks 4 at the front and 9 at the back. -/
theorem peek_front_back_spec_w :
    ((Vec.from_range ([] : List Int)).peek_front.1 =
      Except.error (error.Error.NoSuchElement "vector is empty.")) ∧
    ((Vec.from_range [(4 : Int), 9]).peek_front.1 = Except.ok 4 ∧
      (Vec.from_range [(4 : Int), 9]).peek_back.1 = Except.ok 9) := by
  constructor
  · exact ((peek_front_back_spec (Vec.from_range ([] : List Int))).1.mp (by decide)).1
  · have h := (peek_front_back_spec (Vec.from_range [(4 : Int), 9])).2.1
      (by decide)
    simpa using h

/-- `C4`: `pop_back()` never raises; on an empty container it returns no
value and leaves the size at 0; on a container of size `n > 0` it returns
the previous last element by value and leaves size `n - 1` (capacity
untouched). -/
theorem pop_back_spec {T : Type} (v : Vec T) :
    (∃ r, v.pop_back = Except.ok r) ∧
    (v.size = 0 → v.pop_back = Except.ok (none, v)) ∧
    (∀ h : v.self ≠ [],
      v.pop_back =
        Except.ok (some (v.self.getLast h), ⟨v.self.dropLast, v.cap⟩) ∧
      v.self.dropLast.length = v.size - 1) := by
  have hsplit : v.self.isEmpty = true ∨ v.self.isEmpty = false :=
    Bool.eq_false_or_eq_true v.self.isEmpty
  refine ⟨?_, ?_, ?_⟩
  · rcases hsplit with h | h
    · exact ⟨(none, v), by simp [Vec.pop_back, Vec.is_empty, h]⟩
    · refine ⟨(some (v.self.getLast (by simpa using h)),
        ⟨v.self.dropLast, v.cap⟩), ?_⟩
      simp [Vec.pop_back, Vec.is_empty, Vec.peek_back, h]
  · intro h
    have h' : v.self.isEmpty = true := by
      simpa [Vec.size, List.length_eq_zero] using h
    simp [Vec.pop_back, Vec.is_empty, h']
  · intro h
    have h' : v.self.isEmpty = false := by simpa using h
    constructor
    · simp [Vec.pop_back, Vec.is_empty, Vec.peek_back, h']
    · simp [Vec.size, List.length_dropLast]

/-- Witness for `C4` on the container `[3, 5]`: `pop_back` returns 5 and
the remaining state `[3]` of size 1. -/
theorem pop_back_spec_w :
    (Vec.from_range [(3 : Int), 5]).pop_back =
      Except.ok (some 5, ⟨[3], 2⟩) ∧
    ([(3 : Int), 5].dropLast).length = (Vec.from_range [(3 : Int), 5]).size - 1 := by
  have h := (pop_back_spec (Vec.from_range [(3 : Int), 5])).2.2
    (by decide)
  simpa using h

/-- Modelled from the spec: `Vec::swap(other)` as documented ("Exchanges
the content of the vector by the content of the `other` vector of the same
type. Sizes may differ.").  The source body (`vec.h` line 347) is
`self.swap(other)`, which passes a `Vec<T>&` where
`std::vector<T>::swap` requires a `std::vector<T>&`; no conversion
exists, so every instantiation of `Vec::swap` is ill-formed and the
member cannot be called.  This definition models the documented intent,
`self.swap(other.self)`: the two backing buffers (element lists and their
capacities) change owners.  Result: (new `*this`, new `other`). -/
def Vec.swap {T : Type} (a other : Vec T) : Vec T × Vec T :=
  ({ self := other.self, cap := other.cap }, { self := a.self, cap := a.cap })

/-- `C2` (intended behavior): after `a.swap(b)` the elements of `a` equal
the pre-swap elements of `b` and vice versa, for any sizes. -/
theorem swap_exchanges {T : Type} (a b : Vec T) :
    ((a.swap b).1.self = b.self ∧ (a.swap b).2.self = a.self) ∧
    ((a.swap b).1.size = b.size ∧ (a.swap b).2.size = a.size) := by
  exact ⟨⟨rfl, rfl⟩, ⟨rfl, rfl⟩⟩

/-- The element loop of `operator<<(os, vec)`: each iteration writes the
element's rendering (`os << *iter`, modelled by `elemStr`) and, whenever
the element is not the last one (`iter + 1 != vec.cend()`), the separator
`", "`. -/
def streamElems {T : Type} (elemStr : T → String) : List T → String
  | [] => ""
  | [x] => elemStr x
  | x :: y :: rest => elemStr x ++ ", " ++ streamElems elemStr (y :: rest)

/-- `operator<<(os, vec)`: writes `"["`, then the element loop, then
`"]"`.  Modelled as the string the call appends to the stream. -/
def Vec.ostream_str {T : Type} (v : Vec T) (elemStr : T → String) : String :=
  "[" ++ streamElems elemStr v.self ++ "]"

/-- `String.intercalate.go` distributes over a prepended accumulator. -/
theorem intercalate_go_acc (s : String) :
    ∀ (l : List String) (acc₁ acc₂ : String),
      String.intercalate.go (acc₁ ++ acc₂) s l =
        acc₁ ++ String.intercalate.go acc₂ s l := by
  intro l
  induction l with
  | nil => intro acc₁ acc₂; rfl
  | cons a as ih =>
    intro acc₁ acc₂
    show String.intercalate.go (acc₁ ++ acc₂) s (a :: as) = _
    rw [String.intercalate.go, String.intercalate.go]
    have hassoc : acc₁ ++ acc₂ ++ s ++ a = acc₁ ++ (acc₂ ++ s ++ a) := by
      simp only [String.append_assoc]
    rw [hassoc]
    exact ih acc₁ (acc₂ ++ s ++ a)

/-- The `operator<<` element loop produces exactly the `", "`-intercalation
of the rendered elements. -/
theorem streamElems_eq_intercalate {T : Type} (elemStr : T → String)
    (l : List T) :
    streamElems elemStr l = String.intercalate ", " (l.map elemStr) := by
  induction l with
  | nil => rfl
  | cons x xs ih =>
    cases xs with
    | nil => rfl
    | cons y rest =>
      show elemStr x ++ ", " ++ streamElems elemStr (y :: rest) = _
      rw [ih]
      show _ = String.intercalate ", "
        (elemStr x :: elemStr y :: rest.map elemStr)
      rw [String.intercalate, String.intercalate.go,
        intercalate_go_acc ", " (rest.map elemStr) (elemStr x ++ ", ")
          (elemStr y)]
      rfl

/-- `C9`: the string rendering of a container with elements
`e0, …, eN-1` is `"[e0, e1, …, eN-1]"`, a `"["`/`"]"`-bracketed
`", "`-intercalation with no trailing separator; the empty container
renders `"[]"`. -/
theorem ostream_str_spec {T : Type} (elemStr : T → String) (v : Vec T) :
    v.ostream_str elemStr =
      "[" ++ String.intercalate ", " (v.self.map elemStr) ++ "]" ∧
    (v.self = [] → v.ostream_str elemStr = "[]") := by
  constructor
  · rw [Vec.ostream_str, streamElems_eq_intercalate]
  · intro h
    rw [Vec.ostream_str, h]
    rfl

/-- Witness for `C9`: the empty `Vec Int` renders `"[]"` and `[1, 2, 3]`
renders `"[1, 2, 3]"`. -/
theorem ostream_str_spec_w :
    (Vec.from_range ([] : List Int)).ostream_str (fun n => toString n) = "[]" ∧
    (Vec.from_range [(1 : Int), 2, 3]).ostream_str (fun n => toString n) =
      "[1, 2, 3]" := by
  constructor
  · exact (ostream_str_spec (fun n => toString n)
      (Vec.from_range ([] : List Int))).2 rfl
  · have h := (ostream_str_spec (fun n : Int => toString n)
      (Vec.from_range [(1 : Int), 2, 3])).1
    rw [h]
    rfl

/-- The loop of `Vec::with(pat)`:
`for (Size i = 1; i < self.size(); i++) self[i] = pat(self[i - 1]);`.
Iteration `i` overwrites position `i` with `pat` applied to the current
value at `i - 1` — the value already rewritten by the previous iteration
(`std::vector::operator[]`, unchecked; in the loop `1 ≤ i`, so `i - 1` is
in bounds and the `getD` default is never read).  `fuel` bounds the
number of iterations so that the recursion is structural; the loop body
keeps the length constant, so any `fuel ≥ length - i` runs the loop to
its real exit condition `i ≥ length`. -/
def withLoop (pat : pattern.Pattern Int) : Nat → List Int → Nat → List Int
  | 0, l, _ => l
  | fuel + 1, l, i =>
    if i < l.length then
      withLoop pat fuel (l.set i (pat (l.getD (i - 1) 0))) (i + 1)
    else
      l

/-- `Vec::with(pat)`, available only under
`requires (std::numeric_limits<U>::is_integer)`; embedded at the integer
element type `Int`.  Runs the loop from `i = 1` over `self` (mutating in
place; the capacity is untouched) and returns `*this` — the C++ return
type is `Vec<T>` by value, so the returned container is a copy equal to
the mutated state, which is what this model returns. -/
def Vec.with_pat (v : Vec Int) (pat : pattern.Pattern Int) : Vec Int :=
  { v with self := withLoop pat v.self.length v.self 1 }

/-- `List.getD` after `List.set` at the written index reads the written
value. -/
theorem getD_set_written (l : List Int) (i : Nat) (a : Int)
    (h : i < l.length) :
    (l.set i a).getD i 0 = a := by
  rw [List.getD_eq_getElem _ _ (by simpa using h)]
  simp

/-- `List.getD` after `List.set` at a different index is unchanged. -/
theorem getD_set_other (l : List Int) (i k : Nat) (a : Int) (h : k ≠ i) :
    (l.set i a).getD k 0 = l.getD k 0 := by
  by_cases hk : k < l.length
  · rw [List.getD_eq_getElem _ _ (by simpa using hk),
      List.getD_eq_getElem _ _ hk]
    exact List.getElem_set_ne (fun he => h he.symm) _
  · rw [List.getD_eq_default _ _ (by simpa using Nat.le_of_not_lt hk),
      List.getD_eq_default _ _ (Nat.le_of_not_lt hk)]

/-- Invariant of the `with` loop, for any entry index `1 ≤ j` and enough
fuel: the length is preserved, positions before `j` keep their values,
and every position `k` from `j` up to the end holds `pat` of the final
value at `k - 1`. -/
theorem withLoop_inv (pat : pattern.Pattern Int) (fuel : Nat) :
    ∀ (l : List Int) (j : Nat), 1 ≤ j → l.length - j ≤ fuel →
      (withLoop pat fuel l j).length = l.length ∧
      (∀ k, k < j → (withLoop pat fuel l j).getD k 0 = l.getD k 0) ∧
      (∀ k, j ≤ k → k < l.length →
        (withLoop pat fuel l j).getD k 0 =
          pat ((withLoop pat fuel l j).getD (k - 1) 0)) := by
  induction fuel with
  | zero =>
    intro l j hj hf
    exact ⟨rfl, fun k _ => rfl, fun k hjk hk => absurd hk (by omega)⟩
  | succ fuel ih =>
    intro l j hj hf
    by_cases hlt : j < l.length
    · have hstep : withLoop pat (fuel + 1) l j =
          withLoop pat fuel (l.set j (pat (l.getD (j - 1) 0))) (j + 1) := by
        simp [withLoop, hlt]
      have hlen : (l.set j (pat (l.getD (j - 1) 0))).length = l.length := by
        simp
      obtain ⟨ih1, ih2, ih3⟩ :=
        ih (l.set j (pat (l.getD (j - 1) 0))) (j + 1) (by omega)
          (by rw [hlen]; omega)
      rw [hstep]
      refine ⟨by rw [ih1, hlen], ?_, ?_⟩
      · intro k hk
        rw [ih2 k (by omega)]
        exact getD_set_other l j k _ (by omega)
      · intro k hjk hk
        rcases Nat.eq_or_lt_of_le hjk with hkj | hkj
        · subst hkj
          rw [ih2 j (by omega), ih2 (j - 1) (by omega),
            getD_set_written l j _ hlt, getD_set_other l j (j - 1) _ (by omega)]
        · exact ih3 k (by omega) (by rw [hlen]; omega)
    · have hstep : withLoop pat (fuel + 1) l j = l := by
        simp [withLoop, hlt]
      rw [hstep]
      exact ⟨rfl, fun k _ => rfl, fun k hjk hk => absurd hk (by omega)⟩

/-- `C5`: for a container of integer element type, `with(pat)` leaves
element 0 unchanged and sets, for each `i` from 1 to `size - 1` in
left-to-right order, element `i` to `pat` of the (already updated)
element `i - 1`; it mutates the container in place (size and capacity
kept) and returns that container. -/
theorem with_pat_spec (pat : pattern.Pattern Int) (v : Vec Int) :
    (v.with_pat pat).size = v.size ∧
    (v.with_pat pat).self.getD 0 0 = v.self.getD 0 0 ∧
    (∀ i, 1 ≤ i → i < v.size →
      (v.with_pat pat).self.getD i 0 =
        pat ((v.with_pat pat).self.getD (i - 1) 0)) ∧
    (v.with_pat pat).cap = v.cap := by
  obtain ⟨h1, h2, h3⟩ :=
    withLoop_inv pat v.self.length v.self 1 (by omega) (by omega)
  exact ⟨h1, h2 0 (by omega), fun i hi hsz => h3 i hi hsz, rfl⟩

/-- Witness for `C5` at `of(3, 2)` with `Incr(1)`: element 0 stays 2 and
element 2 is `Incr(1)` of the updated element 1. -/
theorem with_pat_spec_w :
    ((Vec.of 3 (2 : Int)).with_pat (pattern.Incr 1)).self.getD 0 0 =
      (Vec.of 3 (2 : Int)).self.getD 0 0 ∧
    ((Vec.of 3 (2 : Int)).with_pat (pattern.Incr 1)).self.getD 2 0 =
      pattern.Incr 1
        (((Vec.of 3 (2 : Int)).with_pat (pattern.Incr 1)).self.getD 1 0) := by
  constructor
  · exact (with_pat_spec (pattern.Incr 1) (Vec.of 3 (2 : Int))).2.1
  · exact (with_pat_spec (pattern.Incr 1) (Vec.of 3 (2 : Int))).2.2.1 2
      (by decide) (by decide)

/-- `C6`: `of(4, 1).with(Mult(by = 5))` yields `[1, 5, 25, 125]` (and the
size stays 4). -/
theorem of_with_mult_five :
    ((Vec.of 4 (1 : Int)).with_pat (pattern.Mult 5)).self = [1, 5, 25, 125] ∧
    ((Vec.of 4 (1 : Int)).with_pat (pattern.Mult 5)).size = 4 := by
  constructor
  · rfl
  · rfl
